import Mathlib

set_option maxRecDepth 8192

namespace FileCmp

/-- Result of comparing two files or directory entries (enum FileDiff in src/lib.rs). -/
inductive FileDiff where
  | Equal : FileDiff
  | Different : Nat → FileDiff
  | LeftOnly : FileDiff
  | RightOnly : FileDiff
  | Error : String → FileDiff
deriving DecidableEq, Repr

/-- Index of the first position where the two lists hold different values, the
scan the Rust loop for i in 0 to len1 runs over the two read buffers. -/
def firstMismatch : List Nat → List Nat → Option Nat
  | x :: xs, y :: ys =>
    if x ≠ y then some 0 else (firstMismatch xs ys).map (fun i => i + 1)
  | _, _ => none

/-- The read-compare loop of compare_files in src/lib.rs. State: rem1, rem2 are the
unread parts of the two streams; buf1, buf2 are the two read buffers (length
chunk size, initially zero filled; a read overwrites only its first len bytes,
the rest keeps stale content, exactly as the Rust Vec buffers do); pos is the
running consumed byte counter. Each iteration reads min(c, remaining) bytes from
each stream. The first-difference scan mirrors the Rust loop for i in 0 to len1
comparing buffer1 at i with buffer2 at i, so it runs over the whole of the first
read, not just the overlap, and can hit stale bytes of buf2. -/
def cmpLoop (quick : Bool) (c : Nat) (rem1 rem2 buf1 buf2 : List Nat) (pos : Nat) :
    FileDiff :=
  if _h1 : (rem1.take c).length = 0 ∧ (rem2.take c).length = 0 then
    FileDiff.Equal
  else if h2 : rem1.take c = rem2.take c then
    cmpLoop quick c (rem1.drop c) (rem2.drop c)
      (rem1.take c ++ buf1.drop (rem1.take c).length)
      (rem2.take c ++ buf2.drop (rem2.take c).length)
      (pos + (rem1.take c).length)
  else
    if quick then FileDiff.Different 0
    else
      match firstMismatch
          ((rem1.take c ++ buf1.drop (rem1.take c).length).take (rem1.take c).length)
          ((rem2.take c ++ buf2.drop (rem2.take c).length).take (rem1.take c).length) with
      | some i => FileDiff.Different (pos + i)
      | none => FileDiff.Different (pos + min (rem1.take c).length (rem2.take c).length)
termination_by rem1.length + rem2.length
decreasing_by
  have hl : (rem1.take c).length = (rem2.take c).length := by rw [h2]
  simp only [List.length_take] at hl _h1
  simp only [List.length_drop]
  omega

/-- compare_files from src/lib.rs, acting on in-memory byte streams. The two
metadata lengths are the stream lengths; read and open errors do not arise for
in-memory streams, so the io Result wrapper is dropped. -/
def compare_files (f1 f2 : List Nat) (quick : Bool) (chunk_size : Nat) : FileDiff :=
  if f1.length = 0 ∨ f2.length = 0 then
    if f1.length = f2.length then FileDiff.Equal else FileDiff.Different 0
  else if quick ∧ f1.length ≠ f2.length then
    FileDiff.Different 0
  else
    cmpLoop quick chunk_size f1 f2 (List.replicate chunk_size 0)
      (List.replicate chunk_size 0) 0

/-- Rust str trim on a character list (whitespace stripped from both ends). -/
def rustTrim (l : List Char) : List Char :=
  ((l.dropWhile Char.isWhitespace).reverse.dropWhile Char.isWhitespace).reverse

/-- Decimal value of a character list of digits. -/
def digitsVal (l : List Char) : Nat :=
  l.foldl (fun a ch => a * 10 + (ch.toNat - 48)) 0

/-- Strip one leading plus sign, as Rust integer parsing does. -/
def stripPlus : List Char → List Char
  | '+' :: rest => rest
  | l => l

/-- Rust usize FromStr: an optional leading plus sign, then a nonempty run of
ASCII digits whose value fits in 64 bits; anything else fails. -/
def parseUsize (l : List Char) : Option Nat :=
  if stripPlus l ≠ [] ∧ (stripPlus l).all Char.isDigit ∧
      digitsVal (stripPlus l) < 2 ^ 64 then
    some (digitsVal (stripPlus l))
  else none

/-- The body of parse_chunk_size on the trimmed character list: reject the
empty string, dispatch on the last character (k K m M g G multiply by 1024,
1024 squared, 1024 cubed; a digit means raw bytes; anything else fails), then
parse the numeric part as usize. Multiplication is usize arithmetic, reduced
modulo 2 to the 64. -/
def parseChunkCore (t : List Char) : Option Nat :=
  if t.length = 0 then none
  else
    match t.getLast? with
    | none => none
    | some ch =>
      if ch = 'k' ∨ ch = 'K' then
        (parseUsize t.dropLast).map (fun n => n * 1024 % 2 ^ 64)
      else if ch = 'm' ∨ ch = 'M' then
        (parseUsize t.dropLast).map (fun n => n * (1024 * 1024) % 2 ^ 64)
      else if ch = 'g' ∨ ch = 'G' then
        (parseUsize t.dropLast).map (fun n => n * (1024 * 1024 * 1024) % 2 ^ 64)
      else if '0' ≤ ch ∧ ch ≤ '9' then
        (parseUsize t).map (fun n => n * 1 % 2 ^ 64)
      else none

/-- parse_chunk_size from src/lib.rs: trim, then parse. -/
def parse_chunk_size (s : String) : Option Nat :=
  parseChunkCore (rustTrim s.data)

/-- Multiplier the spec assigns to a suffix character. -/
def suffixMult (ch : Char) : Option Nat :=
  if ch = 'k' ∨ ch = 'K' then some 1024
  else if ch = 'm' ∨ ch = 'M' then some (1024 ^ 2)
  else if ch = 'g' ∨ ch = 'G' then some (1024 ^ 3)
  else none

/-- The grammar as the spec words it: digits followed by an optional suffix in
k K m M g G, the value being the digits times the suffix multiplier. -/
def specChunkGrammar (s : String) (v : Nat) : Prop :=
  (s.data ≠ [] ∧ s.data.all Char.isDigit ∧ v = digitsVal s.data) ∨
  (∃ ds ch m, s.data = ds ++ [ch] ∧ ds ≠ [] ∧ ds.all Char.isDigit ∧
    suffixMult ch = some m ∧ v = digitsVal ds * m)

/-- Multiplier of an optional suffix: the empty suffix means raw bytes. -/
def sufMultOpt : List Char → Option Nat
  | [] => some 1
  | [ch] => suffixMult ch
  | _ => none

/-- The amended grammar: after trimming, an optional plus sign, then nonempty
digits whose value fits in usize, then an optional suffix; the value is the
digits times the multiplier in usize arithmetic. -/
def amendedChunkGrammar (s : String) (v : Nat) : Prop :=
  ∃ sign ds suf m, rustTrim s.data = sign ++ ds ++ suf ∧
    (sign = [] ∨ sign = ['+']) ∧ ds ≠ [] ∧ ds.all Char.isDigit ∧
    digitsVal ds < 2 ^ 64 ∧ sufMultOpt suf = some m ∧
    v = digitsVal ds * m % 2 ^ 64

/-- A file system tree node. A file carries its byte content and whether
opening and reading it succeeds; a directory carries its named entries and
whether listing it succeeds. Metadata of a listed entry is always readable. -/
inductive FsTree where
  | file : List Nat → Bool → FsTree
  | dir : List (String × FsTree) → Bool → FsTree
deriving Repr

/-- Whether a path names a directory (Path is_dir in the walk). -/
def FsTree.isDir : FsTree → Bool
  | .file _ _ => false
  | .dir _ _ => true

/-- Length that fs metadata reports: the content length of a file, or the fixed
nonzero block size the modelled platform reports for a directory. -/
def metaLen : FsTree → Nat
  | .file content _ => content.length
  | .dir _ _ => 4096

/-- Reading the whole of an entry: fails on an unreadable file and on a
directory (read on a directory fails on the modelled platform). -/
def readAll : FsTree → Except String (List Nat)
  | .file content true => .ok content
  | .file _ false => .error "Permission denied (os error 13)"
  | .dir _ _ => .error "Is a directory (os error 21)"

/-- compare_files at the file system level, as compare_dirs invokes it:
metadata lengths first (a directory reports its block size), the two early
returns, then reading both entries and running the chunk loop. -/
def compare_files_fs (t1 t2 : FsTree) (quick : Bool) (chunk_size : Nat) :
    Except String FileDiff :=
  if metaLen t1 = 0 ∨ metaLen t2 = 0 then
    .ok (if metaLen t1 = metaLen t2 then FileDiff.Equal else FileDiff.Different 0)
  else if quick ∧ metaLen t1 ≠ metaLen t2 then
    .ok (FileDiff.Different 0)
  else
    match readAll t1 with
    | .error e => .error e
    | .ok c1 =>
      match readAll t2 with
      | .error e => .error e
      | .ok c2 =>
        .ok (cmpLoop quick chunk_size c1 c2 (List.replicate chunk_size 0)
          (List.replicate chunk_size 0) 0)

/-- Processing of one dir2 entry in compare_dirs: emit RightOnly under the dir2
rooted path unless the name was already processed from dir1. -/
def rightStep (names1 : List String) (p2 : List String) (e : String × FsTree) :
    List (List String × FileDiff) :=
  if names1.contains e.1 then [] else [(p2 ++ [e.1], FileDiff.RightOnly)]

mutual

/-- compare_dirs from src/lib.rs over the file system model. p1 and p2 are the
paths of the two directories; an emitted path is the emitting directory joined
with the entry name. The result lists the left-walk results first, then the
RightOnly results from dir2, the order a rayon collect preserves. It fails only
when listing dir1 or dir2 fails, dir1 checked first. -/
def compare_dirs : FsTree → FsTree → Bool → Nat → List String → List String →
    Except String (List (List String × FileDiff))
  | .file _ _, _, _, _, _, _ => .error "Not a directory (os error 20)"
  | .dir _ false, _, _, _, _, _ => .error "Permission denied (os error 13)"
  | .dir _ true, .file _ _, _, _, _, _ => .error "Not a directory (os error 20)"
  | .dir _ true, .dir _ false, _, _, _, _ => .error "Permission denied (os error 13)"
  | .dir es1 true, .dir es2 true, quick, c, p1, p2 =>
    .ok (walkLeft es1 es2 quick c p1 p2 ++
      es2.flatMap (rightStep (es1.map Prod.fst) p2))

/-- The left walk of compare_dirs: one pass over the dir1 entries in order,
each entry contributing its own sub list of results. A directory entry with a
directory counterpart recurses, a failed recursion becoming one Error entry; a
directory entry with no directory counterpart is LeftOnly; a file entry with an
existing counterpart goes to the file comparator, a failed comparison becoming
one Error entry; a file entry with no counterpart is LeftOnly. -/
def walkLeft : List (String × FsTree) → List (String × FsTree) → Bool → Nat →
    List String → List String → List (List String × FileDiff)
  | [], _, _, _, _, _ => []
  | (name, t) :: rest, es2, quick, c, p1, p2 =>
    (if t.isDir then
      match es2.lookup name with
      | some t2 =>
        if t2.isDir then
          match compare_dirs t t2 quick c (p1 ++ [name]) (p2 ++ [name]) with
          | .ok rs => rs
          | .error e => [(p1 ++ [name], FileDiff.Error e)]
        else [(p1 ++ [name], FileDiff.LeftOnly)]
      | none => [(p1 ++ [name], FileDiff.LeftOnly)]
    else
      match es2.lookup name with
      | some t2 =>
        match compare_files_fs t t2 quick c with
        | .ok r => [(p1 ++ [name], r)]
        | .error e => [(p1 ++ [name], FileDiff.Error e)]
      | none => [(p1 ++ [name], FileDiff.LeftOnly)]) ++
    walkLeft rest es2 quick c p1 p2

end

/-! Helper lemmas about the comparison loop. -/

theorem firstMismatch_lt (l1 l2 : List Nat) (i : Nat)
    (h : firstMismatch l1 l2 = some i) : i < l1.length := by
  induction l1 generalizing l2 i with
  | nil => simp [firstMismatch] at h
  | cons x xs ih =>
    cases l2 with
    | nil => simp [firstMismatch] at h
    | cons y ys =>
      rw [firstMismatch] at h
      by_cases hxy : x ≠ y
      · rw [if_pos hxy] at h
        simp only [Option.some.injEq] at h
        simp
        omega
      · rw [if_neg hxy] at h
        rcases Option.map_eq_some'.mp h with ⟨j, hj, hji⟩
        have := ih ys j hj
        simp
        omega

/-- In quick mode the loop only ever reports offset zero. -/
theorem cmpLoop_quick_zero (c : Nat) (r1 r2 b1 b2 : List Nat) (pos o : Nat)
    (h : cmpLoop true c r1 r2 b1 b2 pos = FileDiff.Different o) : o = 0 := by
  revert h
  induction r1, r2, b1, b2, pos using cmpLoop.induct true c with
  | case1 r1 r2 b1 b2 pos h1 =>
    intro h
    rw [cmpLoop, dif_pos h1] at h
    exact absurd h (by simp)
  | case2 r1 r2 b1 b2 pos h1 h2 ih =>
    intro h
    rw [cmpLoop, dif_neg h1, dif_pos h2] at h
    exact ih h
  | case3 r1 r2 b1 b2 pos h1 h2 hq =>
    intro h
    rw [cmpLoop, dif_neg h1, dif_neg h2, if_pos hq] at h
    simp only [FileDiff.Different.injEq] at h
    omega
  | case4 r1 r2 b1 b2 pos h1 h2 hq i hfind =>
    exact absurd rfl hq
  | case5 r1 r2 b1 b2 pos h1 h2 hq hfind =>
    exact absurd rfl hq

/-- Any offset the loop reports stays within pos plus the longer remainder. -/
theorem cmpLoop_different_le (q : Bool) (c : Nat) (r1 r2 b1 b2 : List Nat)
    (pos o : Nat) (h : cmpLoop q c r1 r2 b1 b2 pos = FileDiff.Different o) :
    o ≤ pos + max r1.length r2.length := by
  revert h
  induction r1, r2, b1, b2, pos using cmpLoop.induct q c with
  | case1 r1 r2 b1 b2 pos h1 =>
    intro h
    rw [cmpLoop, dif_pos h1] at h
    exact absurd h (by simp)
  | case2 r1 r2 b1 b2 pos h1 h2 ih =>
    intro h
    rw [cmpLoop, dif_neg h1, dif_pos h2] at h
    have hle := ih h
    have hl : (r1.take c).length = (r2.take c).length := by rw [h2]
    simp only [List.length_take, List.length_drop] at hle hl h1 ⊢
    omega
  | case3 r1 r2 b1 b2 pos h1 h2 hq =>
    intro h
    rw [cmpLoop, dif_neg h1, dif_neg h2, if_pos hq] at h
    simp only [FileDiff.Different.injEq] at h
    omega
  | case4 r1 r2 b1 b2 pos h1 h2 hq i hfind =>
    intro h
    rw [cmpLoop, dif_neg h1, dif_neg h2, if_neg hq, hfind] at h
    simp only [FileDiff.Different.injEq] at h
    have hi := firstMismatch_lt _ _ _ hfind
    simp only [List.length_take, List.length_append, List.length_drop] at hi
    omega
  | case5 r1 r2 b1 b2 pos h1 h2 hq hfind =>
    intro h
    rw [cmpLoop, dif_neg h1, dif_neg h2, if_neg hq, hfind] at h
    simp only [FileDiff.Different.injEq] at h
    simp only [List.length_take] at h
    omega

/-- With a positive chunk size the loop answers Equal exactly when the two
remaining streams are identical, whatever the buffers hold. -/
theorem cmpLoop_eq_equal_iff (q : Bool) (c : Nat) (hc : 0 < c)
    (r1 r2 b1 b2 : List Nat) (pos : Nat) :
    cmpLoop q c r1 r2 b1 b2 pos = FileDiff.Equal ↔ r1 = r2 := by
  induction r1, r2, b1, b2, pos using cmpLoop.induct q c with
  | case1 r1 r2 b1 b2 pos h1 =>
    rw [cmpLoop, dif_pos h1]
    simp only [List.length_take] at h1
    have e1 : r1.length = 0 := by omega
    have e2 : r2.length = 0 := by omega
    rw [List.length_eq_zero] at e1 e2
    simp [e1, e2]
  | case2 r1 r2 b1 b2 pos h1 h2 ih =>
    rw [cmpLoop, dif_neg h1, dif_pos h2, ih]
    constructor
    · intro hd
      calc r1 = r1.take c ++ r1.drop c := (List.take_append_drop c r1).symm
        _ = r2.take c ++ r2.drop c := by rw [h2, hd]
        _ = r2 := List.take_append_drop c r2
    · intro he
      rw [he]
  | case3 r1 r2 b1 b2 pos h1 h2 hq =>
    rw [cmpLoop, dif_neg h1, dif_neg h2, if_pos hq]
    constructor
    · intro h
      exact absurd h (by simp)
    · intro he
      exact absurd (by rw [he]) h2
  | case4 r1 r2 b1 b2 pos h1 h2 hq i hfind =>
    rw [cmpLoop, dif_neg h1, dif_neg h2, if_neg hq, hfind]
    constructor
    · intro h
      exact absurd h (by simp)
    · intro he
      exact absurd (by rw [he]) h2
  | case5 r1 r2 b1 b2 pos h1 h2 hq hfind =>
    rw [cmpLoop, dif_neg h1, dif_neg h2, if_neg hq, hfind]
    constructor
    · intro h
      exact absurd h (by simp)
    · intro he
      exact absurd (by rw [he]) h2

/-- Claim C1, refuted by the code: the non-quick outcome of compare_files does
depend on the chunk size. On the streams 1 0 2 and 1 (both nonzero length) a
chunk size of 1 reports offset 1, a chunk size of 3 reports offset 2: with one
3-byte read the scan runs past the 1-byte overlap and compares byte 0 of the
longer stream against the zero-initialized stale byte of the second buffer,
finding the mismatch only at index 2. -/
theorem C1_chunk_size_changes_result :
    compare_files [1, 0, 2] [1] false 1 = FileDiff.Different 1 ∧
    compare_files [1, 0, 2] [1] false 3 = FileDiff.Different 2 := by
  constructor <;> simp [compare_files, cmpLoop, firstMismatch]

/-- Claim C2, refuted by the code: the stream 1 is a strict prefix of the
stream 1 0 2, the slices read with chunk size 3 agree on the whole 1-byte
overlap, so the claim demands Different 1, yet the scan over 0 to len1
compares the longer read against stale buffer bytes and returns Different 2. -/
theorem C2_prefix_offset_wrong :
    [1, 0, 2] = [1] ++ [0, 2] ∧
    compare_files [1, 0, 2] [1] false 3 = FileDiff.Different 2 := by
  exact ⟨rfl, by simp [compare_files, cmpLoop, firstMismatch]⟩

/-- Claim C3, refuted by the code: swapping the two streams changes the
reported offset, because the scan bound is the first read length only. -/
theorem C3_not_symmetric :
    compare_files [1, 0, 2] [1] false 3 = FileDiff.Different 2 ∧
    compare_files [1] [1, 0, 2] false 3 = FileDiff.Different 1 := by
  constructor <;> simp [compare_files, cmpLoop, firstMismatch]

/-- Claim C7: with quick set, whenever compare_files returns Different the
reported offset is zero, on the zero-length path, the length-mismatch path and
the content-difference path alike. -/
theorem C7_quick_reports_zero (f1 f2 : List Nat) (c o : Nat)
    (h : compare_files f1 f2 true c = FileDiff.Different o) : o = 0 := by
  rw [compare_files] at h
  split at h
  · split at h
    · exact absurd h (by simp)
    · simp only [FileDiff.Different.injEq] at h
      omega
  · split at h
    · simp only [FileDiff.Different.injEq] at h
      omega
    · exact cmpLoop_quick_zero _ _ _ _ _ _ _ h

/-- Witness for claim C7 at a concrete input. -/
theorem C7_quick_reports_zero_witness :
    compare_files [1] [2] true 4 = FileDiff.Different 0 ∧ (0 : Nat) = 0 :=
  ⟨by simp [compare_files, cmpLoop, firstMismatch],
   C7_quick_reports_zero [1] [2] 4 0
     (by simp [compare_files, cmpLoop, firstMismatch])⟩

/-- Claim C8: an offset reported by Different lies between zero and the longer
input length, in every mode and for every chunk size. -/
theorem C8_offset_bounded (f1 f2 : List Nat) (q : Bool) (c o : Nat)
    (h : compare_files f1 f2 q c = FileDiff.Different o) :
    0 ≤ o ∧ o ≤ max f1.length f2.length := by
  refine ⟨Nat.zero_le o, ?_⟩
  rw [compare_files] at h
  split at h
  · split at h
    · exact absurd h (by simp)
    · simp only [FileDiff.Different.injEq] at h
      omega
  · split at h
    · simp only [FileDiff.Different.injEq] at h
      omega
    · have := cmpLoop_different_le q c f1 f2 _ _ 0 o h
      omega

/-- Witness for claim C8 at a concrete input. -/
theorem C8_offset_bounded_witness :
    compare_files [1, 0, 2] [1] false 3 = FileDiff.Different 2 ∧
      0 ≤ 2 ∧ 2 ≤ max (List.length [1, 0, 2]) (List.length [1]) :=
  ⟨by simp [compare_files, cmpLoop, firstMismatch],
   C8_offset_bounded [1, 0, 2] [1] false 3 2
     (by simp [compare_files, cmpLoop, firstMismatch])⟩

/-- Claim C10: for a positive chunk size, quick mode and full mode agree on
the Equal versus Different classification of any pair of byte streams. -/
theorem C10_quick_equal_iff (f1 f2 : List Nat) (c : Nat) (hc : 0 < c) :
    (compare_files f1 f2 true c = FileDiff.Equal ↔
      compare_files f1 f2 false c = FileDiff.Equal) := by
  rw [compare_files, compare_files]
  split_ifs with h0 he hq hf hf
  · exact Iff.rfl
  · exact Iff.rfl
  · exact Iff.rfl
  · rw [cmpLoop_eq_equal_iff false c hc]
    constructor
    · intro h
      exact absurd h (by simp)
    · intro hcontents
      exact absurd (congrArg List.length hcontents) hq.2
  · exact absurd hf (by simp)
  · rw [cmpLoop_eq_equal_iff true c hc, cmpLoop_eq_equal_iff false c hc]

/-- Witness for claim C10 at a concrete input. -/
theorem C10_quick_equal_iff_witness :
    (0 < 2) ∧
      (compare_files [1, 2, 3] [1, 2, 3] true 2 = FileDiff.Equal ↔
        compare_files [1, 2, 3] [1, 2, 3] false 2 = FileDiff.Equal) :=
  ⟨by omega, C10_quick_equal_iff [1, 2, 3] [1, 2, 3] 2 (by omega)⟩

/-- The loop only ever answers Equal or Different. -/
theorem cmpLoop_shape (q : Bool) (c : Nat) (r1 r2 b1 b2 : List Nat) (pos : Nat) :
    cmpLoop q c r1 r2 b1 b2 pos = FileDiff.Equal ∨
      ∃ o, cmpLoop q c r1 r2 b1 b2 pos = FileDiff.Different o := by
  induction r1, r2, b1, b2, pos using cmpLoop.induct q c with
  | case1 r1 r2 b1 b2 pos h1 =>
    rw [cmpLoop, dif_pos h1]
    exact Or.inl rfl
  | case2 r1 r2 b1 b2 pos h1 h2 ih =>
    rw [cmpLoop, dif_neg h1, dif_pos h2]
    exact ih
  | case3 r1 r2 b1 b2 pos h1 h2 hq =>
    rw [cmpLoop, dif_neg h1, dif_neg h2, if_pos hq]
    exact Or.inr ⟨0, rfl⟩
  | case4 r1 r2 b1 b2 pos h1 h2 hq i hfind =>
    rw [cmpLoop, dif_neg h1, dif_neg h2, if_neg hq, hfind]
    exact Or.inr ⟨pos + i, rfl⟩
  | case5 r1 r2 b1 b2 pos h1 h2 hq hfind =>
    rw [cmpLoop, dif_neg h1, dif_neg h2, if_neg hq, hfind]
    exact Or.inr ⟨pos + min (r1.take c).length (r2.take c).length, rfl⟩

/-! Helper lemmas for the chunk size parser. -/

theorem stripPlus_cons_ne (c : Char) (cs : List Char) (h : c ≠ '+') :
    stripPlus (c :: cs) = c :: cs := by
  rw [stripPlus.eq_def]
  split
  · next heq =>
      injection heq with h1 h2
      exact absurd h1 h
  · rfl

theorem digit_ne_plus (c : Char) (hd : c.isDigit = true) : c ≠ '+' := by
  intro h
  subst h
  exact absurd hd (by decide)

theorem digit_not_suffix (c : Char) (hd : c.isDigit = true) :
    ¬(c = 'k' ∨ c = 'K') ∧ ¬(c = 'm' ∨ c = 'M') ∧ ¬(c = 'g' ∨ c = 'G') := by
  refine ⟨?_, ?_, ?_⟩ <;> rintro (rfl | rfl) <;> exact absurd hd (by decide)

theorem isDigit_iff_range (c : Char) : c.isDigit = true ↔ ('0' ≤ c ∧ c ≤ '9') := by
  simp [Char.isDigit, Char.le_def]

/-- Characterization of the usize parser. -/
theorem parseUsize_eq_some_iff (l : List Char) (n : Nat) :
    parseUsize l = some n ↔
    ∃ sign ds, l = sign ++ ds ∧ (sign = [] ∨ sign = ['+']) ∧ ds ≠ [] ∧
      ds.all Char.isDigit = true ∧ digitsVal ds < 2 ^ 64 ∧ n = digitsVal ds := by
  constructor
  · intro h
    rw [parseUsize] at h
    split at h
    · next hcond =>
      obtain ⟨hne, hall, hlt⟩ := hcond
      simp only [Option.some.injEq] at h
      cases l with
      | nil => exact absurd (rfl : stripPlus [] = []) hne
      | cons c cs =>
        by_cases hc : c = '+'
        · subst hc
          refine ⟨['+'], cs, rfl, Or.inr rfl, ?_, ?_, ?_, ?_⟩ <;>
            simp_all [stripPlus]
        · rw [stripPlus_cons_ne c cs hc] at hne hall hlt h
          exact ⟨[], c :: cs, rfl, Or.inl rfl, hne, hall, hlt, h.symm⟩
    · exact absurd h (by simp)
  · rintro ⟨sign, ds, rfl, hsign, hne, hall, hlt, rfl⟩
    rcases hsign with rfl | rfl
    · obtain ⟨d, ds', rfl⟩ := List.exists_cons_of_ne_nil hne
      have hd : d.isDigit = true := by
        simp only [List.all_cons, Bool.and_eq_true] at hall
        exact hall.1
      rw [List.nil_append, parseUsize,
        stripPlus_cons_ne d ds' (digit_ne_plus d hd), if_pos ⟨hne, hall, hlt⟩]
    · rw [parseUsize]
      have hs : stripPlus ('+' :: ds) = ds := rfl
      rw [List.singleton_append, hs, if_pos ⟨hne, hall, hlt⟩]

/-- Characterization of the parser body on the trimmed character list. -/
theorem parseChunkCore_eq_some_iff (t : List Char) (v : Nat) :
    parseChunkCore t = some v ↔
    ∃ sign ds suf m, t = sign ++ ds ++ suf ∧ (sign = [] ∨ sign = ['+']) ∧
      ds ≠ [] ∧ ds.all Char.isDigit = true ∧ digitsVal ds < 2 ^ 64 ∧
      sufMultOpt suf = some m ∧ v = digitsVal ds * m % 2 ^ 64 := by
  constructor
  · intro h
    rcases List.eq_nil_or_concat' t with rfl | ⟨t', ch, rfl⟩
    · rw [parseChunkCore] at h
      simp at h
    · have hlen : ¬(t' ++ [ch]).length = 0 := by simp
      rw [parseChunkCore, if_neg hlen] at h
      simp only [List.getLast?_concat, List.dropLast_concat] at h
      split_ifs at h with hk hm hg hd
      · rcases Option.map_eq_some'.mp h with ⟨n, hn, hv⟩
        rcases (parseUsize_eq_some_iff t' n).mp hn with
          ⟨sign, ds, rfl, hsign, hne, hall, hlt, rfl⟩
        refine ⟨sign, ds, [ch], 1024, by simp, hsign, hne, hall, hlt, ?_, hv.symm⟩
        rcases hk with rfl | rfl <;> decide
      · rcases Option.map_eq_some'.mp h with ⟨n, hn, hv⟩
        rcases (parseUsize_eq_some_iff t' n).mp hn with
          ⟨sign, ds, rfl, hsign, hne, hall, hlt, rfl⟩
        refine ⟨sign, ds, [ch], 1024 * 1024, by simp, hsign, hne, hall, hlt, ?_,
          hv.symm⟩
        rcases hm with rfl | rfl <;> decide
      · rcases Option.map_eq_some'.mp h with ⟨n, hn, hv⟩
        rcases (parseUsize_eq_some_iff t' n).mp hn with
          ⟨sign, ds, rfl, hsign, hne, hall, hlt, rfl⟩
        refine ⟨sign, ds, [ch], 1024 * 1024 * 1024, by simp, hsign, hne, hall, hlt,
          ?_, hv.symm⟩
        rcases hg with rfl | rfl <;> decide
      · rcases Option.map_eq_some'.mp h with ⟨n, hn, hv⟩
        rcases (parseUsize_eq_some_iff (t' ++ [ch]) n).mp hn with
          ⟨sign, ds, heq, hsign, hne, hall, hlt, rfl⟩
        exact ⟨sign, ds, [], 1, by simp [heq], hsign, hne, hall, hlt, rfl, hv.symm⟩
  · rintro ⟨sign, ds, suf, m, rfl, hsign, hne, hall, hlt, hm, rfl⟩
    rcases suf with _ | ⟨ch, suf'⟩
    · have hm1 : m = 1 := by simpa [sufMultOpt] using hm.symm
      subst hm1
      rcases List.eq_nil_or_concat' ds with rfl | ⟨ds', d, rfl⟩
      · exact absurd rfl hne
      · have hd : d.isDigit = true := by
          simp only [List.all_append, List.all_cons, List.all_nil,
            Bool.and_eq_true] at hall
          exact hall.2.1
        obtain ⟨hnk, hnm, hng⟩ := digit_not_suffix d hd
        have hd01 : ('0' ≤ d ∧ d ≤ '9') := (isDigit_iff_range d).mp hd
        have hlen : ¬(sign ++ (ds' ++ [d]) ++ ([] : List Char)).length = 0 := by
          simp
        rw [parseChunkCore, if_neg hlen, List.append_nil, ← List.append_assoc]
        simp only [List.getLast?_concat]
        rw [if_neg hnk, if_neg hnm, if_neg hng, if_pos hd01]
        have hp : parseUsize (sign ++ ds' ++ [d]) = some (digitsVal (ds' ++ [d])) := by
          rw [List.append_assoc]
          exact (parseUsize_eq_some_iff (sign ++ (ds' ++ [d]))
            (digitsVal (ds' ++ [d]))).mpr
            ⟨sign, ds' ++ [d], rfl, hsign, hne, hall, hlt, rfl⟩
        rw [hp, Option.map_some']
    · rcases suf' with _ | ⟨ch2, suf''⟩
      · simp only [sufMultOpt] at hm
        rw [suffixMult] at hm
        have hlen : ¬(sign ++ ds ++ [ch]).length = 0 := by simp
        rw [parseChunkCore, if_neg hlen]
        simp only [List.getLast?_concat, List.dropLast_concat]
        have hp : parseUsize (sign ++ ds) = some (digitsVal ds) :=
          (parseUsize_eq_some_iff (sign ++ ds) (digitsVal ds)).mpr
            ⟨sign, ds, rfl, hsign, hne, hall, hlt, rfl⟩
        split_ifs at hm with hk hmm hg
        · have hm' : m = 1024 := by simpa using hm.symm
          subst hm'
          rw [if_pos hk, hp, Option.map_some']
        · have hm' : m = 1024 ^ 2 := by simpa using hm.symm
          subst hm'
          rw [if_neg hk, if_pos hmm, hp, Option.map_some']
          norm_num
        · have hm' : m = 1024 ^ 3 := by simpa using hm.symm
          subst hm'
          rw [if_neg hk, if_neg hmm, if_pos hg, hp, Option.map_some']
          norm_num
      · exact absurd hm (by simp [sufMultOpt])

/-- Claim C9, counterexample: parse_chunk_size accepts the string plus-one,
which does not match the digits-then-optional-suffix grammar of the spec (its
first character is not a digit), so Some is not returned exactly on the
grammar and a non-numeric prefix is not always a failure. -/
theorem C9_plus_sign_accepted :
    parse_chunk_size "+1" = some 1 ∧ ¬ specChunkGrammar "+1" 1 := by
  refine ⟨by decide, ?_⟩
  rintro (⟨_, hall, _⟩ | ⟨ds, ch, m, heq, _, hall, hm, _⟩)
  · exact absurd hall (by decide)
  · have hdata : ("+1" : String).data = ['+', '1'] := rfl
    rw [hdata] at heq
    have h2 := congrArg List.getLast? heq
    rw [List.getLast?_concat] at h2
    have h3 : (['+', '1'] : List Char).getLast? = some '1' := rfl
    rw [h3] at h2
    have hch : ch = '1' := (Option.some.inj h2).symm
    have h4 : suffixMult '1' = none := by decide
    rw [hch, h4] at hm
    exact absurd hm (by simp)

/-! Helper lemmas about the directory walk. -/

theorem walkLeft_append (es es' es2 : List (String × FsTree)) (q : Bool) (c : Nat)
    (p1 p2 : List String) :
    walkLeft (es ++ es') es2 q c p1 p2 =
      walkLeft es es2 q c p1 p2 ++ walkLeft es' es2 q c p1 p2 := by
  induction es with
  | nil => rw [List.nil_append, walkLeft, List.nil_append]
  | cons e rest ih =>
    obtain ⟨name, t⟩ := e
    rw [List.cons_append, walkLeft, walkLeft, ih, List.append_assoc]

theorem walkLeft_cons (name : String) (t : FsTree)
    (rest es2 : List (String × FsTree)) (q : Bool) (c : Nat) (p1 p2 : List String) :
    walkLeft ((name, t) :: rest) es2 q c p1 p2 =
      walkLeft [(name, t)] es2 q c p1 p2 ++ walkLeft rest es2 q c p1 p2 := by
  rw [← List.singleton_append, walkLeft_append]

/-- An ok outcome of the file comparator is Equal or Different, never a
one-sided or error marker. -/
theorem compare_files_fs_ok_shape (t1 t2 : FsTree) (q : Bool) (c : Nat)
    (r : FileDiff) (h : compare_files_fs t1 t2 q c = Except.ok r) :
    r = FileDiff.Equal ∨ ∃ o, r = FileDiff.Different o := by
  rw [compare_files_fs] at h
  split at h
  · simp only [Except.ok.injEq] at h
    split at h
    · exact Or.inl h.symm
    · exact Or.inr ⟨0, h.symm⟩
  · split at h
    · simp only [Except.ok.injEq] at h
      exact Or.inr ⟨0, h.symm⟩
    · split at h
      · exact absurd h (by simp)
      · split at h
        · exact absurd h (by simp)
        · simp only [Except.ok.injEq] at h
          rcases cmpLoop_shape q c _ _ _ _ 0 with hs | ⟨o, hs⟩
          · exact Or.inl (by rw [← h, hs])
          · exact Or.inr ⟨o, by rw [← h, hs]⟩

/-- Comparing a nonempty readable or unreadable file against a directory in
full mode always fails with an io error. -/
theorem compare_files_fs_file_dir_error (cnt : List Nat) (o : Bool)
    (sub : List (String × FsTree)) (b : Bool) (c : Nat) (hne : cnt ≠ []) :
    ∃ msg, compare_files_fs (FsTree.file cnt o) (FsTree.dir sub b) false c =
      Except.error msg := by
  have h0 : ¬(metaLen (FsTree.file cnt o) = 0 ∨ metaLen (FsTree.dir sub b) = 0) := by
    simp [metaLen, List.length_eq_zero, hne]
  have hq : ¬((false : Bool) = true ∧
      metaLen (FsTree.file cnt o) ≠ metaLen (FsTree.dir sub b)) := by simp
  cases o with
  | false =>
    refine ⟨"Permission denied (os error 13)", ?_⟩
    rw [compare_files_fs, if_neg h0, if_neg hq]
    rfl
  | true =>
    refine ⟨"Is a directory (os error 21)", ?_⟩
    rw [compare_files_fs, if_neg h0, if_neg hq]
    rfl

/-- Claim C9 as amended: parse_chunk_size returns Some exactly for the strings
that, after trimming, consist of an optional plus sign, a nonempty run of
digits whose value fits in usize, and an optional suffix in k K m M g G, the
result being the digit value times the multiplier in usize arithmetic; every
other string, the empty string, a non-numeric rest and an unrecognized suffix
included, yields None. -/
theorem C9_amended_parse_iff (s : String) (v : Nat) :
    parse_chunk_size s = some v ↔ amendedChunkGrammar s v :=
  parseChunkCore_eq_some_iff (rustTrim s.data) v

/-- Claim C5 as amended: in a successful compare_dirs result every entry other
than RightOnly carries a path rooted at the left directory, while every
RightOnly entry carries a path rooted at the right directory, at every depth. -/
theorem C5_amended_paths : ∀ (t1 t2 : FsTree) (q : Bool) (c : Nat)
    (p1 p2 : List String) (res : List (List String × FileDiff)),
    compare_dirs t1 t2 q c p1 p2 = Except.ok res →
    ∀ pd ∈ res, (pd.2 = FileDiff.RightOnly → ∃ r, pd.1 = p2 ++ r) ∧
      (pd.2 ≠ FileDiff.RightOnly → ∃ r, pd.1 = p1 ++ r) := by
  refine compare_dirs.induct
    (fun t1 t2 q c p1 p2 => ∀ res, compare_dirs t1 t2 q c p1 p2 = Except.ok res →
      ∀ pd ∈ res, (pd.2 = FileDiff.RightOnly → ∃ r, pd.1 = p2 ++ r) ∧
        (pd.2 ≠ FileDiff.RightOnly → ∃ r, pd.1 = p1 ++ r))
    (fun es1 es2 q c p1 p2 => ∀ pd ∈ walkLeft es1 es2 q c p1 p2,
      (pd.2 = FileDiff.RightOnly → ∃ r, pd.1 = p2 ++ r) ∧
        (pd.2 ≠ FileDiff.RightOnly → ∃ r, pd.1 = p1 ++ r))
    ?_ ?_ ?_ ?_ ?_ ?_ ?_
  · intro a a1 x x1 x2 x3 x4 res h
    rw [compare_dirs] at h
    simp at h
  · intro a x x1 x2 x3 x4 res h
    rw [compare_dirs] at h
    simp at h
  · intro a a1 a2 x x1 x2 x3 res h
    rw [compare_dirs] at h
    simp at h
  · intro a a1 x x1 x2 x3 res h
    rw [compare_dirs] at h
    simp at h
  · intro es1 es2 q c p1 p2 ih res h pd hpd
    rw [compare_dirs] at h
    simp only [Except.ok.injEq] at h
    subst h
    rcases List.mem_append.mp hpd with hmem | hmem
    · exact ih pd hmem
    · rcases List.mem_flatMap.mp hmem with ⟨e, he, hin⟩
      simp only [rightStep] at hin
      split at hin
      · simp at hin
      · simp only [List.mem_singleton] at hin
        subst hin
        exact ⟨fun _ => ⟨[e.1], rfl⟩, fun hne => absurd rfl hne⟩
  · intro x x1 x2 x3 x4 pd hpd
    rw [walkLeft] at hpd
    simp at hpd
  · intro name t rest es2 q c p1 p2 ih1 ih2 pd hpd
    rw [walkLeft] at hpd
    rcases List.mem_append.mp hpd with hmem | hmem
    · split at hmem
      · split at hmem
        · rename_i t2 hlk
          split at hmem
          · split at hmem
            · rename_i rs hcd
              have hih := ih1 t2 rs hcd pd hmem
              refine ⟨fun hro => ?_, fun hro => ?_⟩
              · rcases hih.1 hro with ⟨r, hr⟩
                exact ⟨[name] ++ r, by rw [hr, List.append_assoc]⟩
              · rcases hih.2 hro with ⟨r, hr⟩
                exact ⟨[name] ++ r, by rw [hr, List.append_assoc]⟩
            · rename_i e hcd
              simp only [List.mem_singleton] at hmem
              subst hmem
              exact ⟨fun hro => by simp at hro, fun _ => ⟨[name], rfl⟩⟩
          · simp only [List.mem_singleton] at hmem
            subst hmem
            exact ⟨fun hro => by simp at hro, fun _ => ⟨[name], rfl⟩⟩
        · simp only [List.mem_singleton] at hmem
          subst hmem
          exact ⟨fun hro => by simp at hro, fun _ => ⟨[name], rfl⟩⟩
      · split at hmem
        · rename_i t2 hlk
          split at hmem
          · rename_i r hcf
            simp only [List.mem_singleton] at hmem
            subst hmem
            rcases compare_files_fs_ok_shape t t2 q c r hcf with hr | ⟨o, hr⟩
            · subst hr
              exact ⟨fun hro => by simp at hro, fun _ => ⟨[name], rfl⟩⟩
            · subst hr
              exact ⟨fun hro => by simp at hro, fun _ => ⟨[name], rfl⟩⟩
          · rename_i e hcf
            simp only [List.mem_singleton] at hmem
            subst hmem
            exact ⟨fun hro => by simp at hro, fun _ => ⟨[name], rfl⟩⟩
        · simp only [List.mem_singleton] at hmem
          subst hmem
          exact ⟨fun hro => by simp at hro, fun _ => ⟨[name], rfl⟩⟩
    · exact ih2 pd hmem

/-- Claim C5, counterexample: with an empty left directory and a right
directory holding one file, the single RightOnly entry carries the path rooted
at the right directory, not at the left one. -/
theorem C5_right_only_path_right_rooted :
    compare_dirs (FsTree.dir [] true) (FsTree.dir [("a", FsTree.file [] true)] true)
        false 4 ["L"] ["R"] =
      Except.ok [(["R", "a"], FileDiff.RightOnly)] ∧
    (["R", "a"] : List String).take 1 ≠ ["L"] := by
  constructor
  · simp [compare_dirs, walkLeft, rightStep]
  · decide

/-- Witness for claim C5 as amended, at a concrete input. -/
theorem C5_amended_paths_witness :
    ∃ r, (["R", "a"] : List String) = ["R"] ++ r :=
  (C5_amended_paths (FsTree.dir [] true)
    (FsTree.dir [("a", FsTree.file [] true)] true) false 4 ["L"] ["R"]
    [(["R", "a"], FileDiff.RightOnly)]
    (by simp [compare_dirs, walkLeft, rightStep])
    (["R", "a"], FileDiff.RightOnly) (by simp)).1 rfl

/-- Claim C4, counterexample: entry a is a file on the left and a directory on
the right, entry b is a directory on the left and a file on the right.
compare_dirs emits LeftOnly only for b; for a it delegates to the file
comparator, which fails reading the directory, so an Error entry is emitted,
not LeftOnly. -/
theorem C4_file_dir_not_left_only :
    compare_dirs
        (FsTree.dir [("a", FsTree.file [1] true), ("b", FsTree.dir [] true)] true)
        (FsTree.dir [("a", FsTree.dir [] true), ("b", FsTree.file [1] true)] true)
        false 4 ["L"] ["R"] =
      Except.ok [(["L", "a"], FileDiff.Error "Is a directory (os error 21)"),
        (["L", "b"], FileDiff.LeftOnly)] ∧
    (["L", "a"], FileDiff.LeftOnly) ∉
      [(["L", "a"], FileDiff.Error "Is a directory (os error 21)"),
        (["L", "b"], FileDiff.LeftOnly)] := by
  constructor
  · simp [compare_dirs, walkLeft, compare_files_fs, readAll, metaLen,
      FsTree.isDir, rightStep, List.lookup]
  · decide

/-- Claim C4 as amended: a left directory with a same-named right file yields a
LeftOnly entry; a nonempty left file with a same-named right directory is
passed to the file comparator instead, which in full mode fails, yielding an
Error entry for that path. -/
theorem C4_amended_type_mismatch (es1 es2 : List (String × FsTree)) (c : Nat)
    (p1 p2 : List String) (res : List (List String × FileDiff))
    (h : compare_dirs (FsTree.dir es1 true) (FsTree.dir es2 true) false c p1 p2 =
      Except.ok res) :
    (∀ name sub b cnt o, (name, FsTree.dir sub b) ∈ es1 →
      es2.lookup name = some (FsTree.file cnt o) →
      (p1 ++ [name], FileDiff.LeftOnly) ∈ res) ∧
    (∀ name cnt o sub b, (name, FsTree.file cnt o) ∈ es1 → cnt ≠ [] →
      es2.lookup name = some (FsTree.dir sub b) →
      ∃ msg, (p1 ++ [name], FileDiff.Error msg) ∈ res) := by
  rw [compare_dirs] at h
  simp only [Except.ok.injEq] at h
  subst h
  constructor
  · intro name sub b cnt o hmem hlk
    rcases List.append_of_mem hmem with ⟨s, t, rfl⟩
    have hstep : walkLeft [(name, FsTree.dir sub b)] es2 false c p1 p2 =
        [(p1 ++ [name], FileDiff.LeftOnly)] := by
      simp [walkLeft, hlk, FsTree.isDir]
    refine List.mem_append.mpr (Or.inl ?_)
    rw [walkLeft_append, walkLeft_cons, hstep]
    simp
  · intro name cnt o sub b hmem hne hlk
    rcases List.append_of_mem hmem with ⟨s, t, rfl⟩
    obtain ⟨msg, hcf⟩ := compare_files_fs_file_dir_error cnt o sub b c hne
    have hstep : walkLeft [(name, FsTree.file cnt o)] es2 false c p1 p2 =
        [(p1 ++ [name], FileDiff.Error msg)] := by
      simp [walkLeft, hlk, FsTree.isDir, hcf]
    refine ⟨msg, List.mem_append.mpr (Or.inl ?_)⟩
    rw [walkLeft_append, walkLeft_cons, hstep]
    simp

/-- Witness for claim C4 as amended, at a concrete input. -/
theorem C4_amended_type_mismatch_witness :
    (["L", "b"], FileDiff.LeftOnly) ∈
      [(["L", "a"], FileDiff.Error "Is a directory (os error 21)"),
        (["L", "b"], FileDiff.LeftOnly)] ∧
    ∃ msg, (["L", "a"], FileDiff.Error msg) ∈
      [(["L", "a"], FileDiff.Error "Is a directory (os error 21)"),
        (["L", "b"], FileDiff.LeftOnly)] := by
  constructor
  · exact (C4_amended_type_mismatch
      [("a", FsTree.file [1] true), ("b", FsTree.dir [] true)]
      [("a", FsTree.dir [] true), ("b", FsTree.file [1] true)] 4 ["L"] ["R"]
      [(["L", "a"], FileDiff.Error "Is a directory (os error 21)"),
        (["L", "b"], FileDiff.LeftOnly)]
      (by simp [compare_dirs, walkLeft, compare_files_fs, readAll, metaLen,
        FsTree.isDir, rightStep, List.lookup])).1 "b" [] true [1] true
      (by simp) rfl
  · exact (C4_amended_type_mismatch
      [("a", FsTree.file [1] true), ("b", FsTree.dir [] true)]
      [("a", FsTree.dir [] true), ("b", FsTree.file [1] true)] 4 ["L"] ["R"]
      [(["L", "a"], FileDiff.Error "Is a directory (os error 21)"),
        (["L", "b"], FileDiff.LeftOnly)]
      (by simp [compare_dirs, walkLeft, compare_files_fs, readAll, metaLen,
        FsTree.isDir, rightStep, List.lookup])).2 "a" [1] true [] true
      (by simp) (by simp) rfl

/-- Claim C6: compare_dirs fails only when one of the two top-level listings
fails; a failed recursion into a shared subdirectory, and a failed comparison
of a matched file pair, each turn into exactly one Error entry under that
path, and the contributions of the siblings on either side are untouched. -/
theorem C6_error_isolation :
    (∀ t1 t2 q c p1 p2 e, compare_dirs t1 t2 q c p1 p2 = Except.error e →
      ∀ es1 es2, ¬(t1 = FsTree.dir es1 true ∧ t2 = FsTree.dir es2 true)) ∧
    (∀ pre post name t es2 q c p1 p2,
      compare_dirs (FsTree.dir (pre ++ (name, t) :: post) true)
          (FsTree.dir es2 true) q c p1 p2 =
        Except.ok (walkLeft pre es2 q c p1 p2 ++
          walkLeft [(name, t)] es2 q c p1 p2 ++ walkLeft post es2 q c p1 p2 ++
          es2.flatMap (rightStep ((pre ++ (name, t) :: post).map Prod.fst) p2))) ∧
    (∀ name sub b es2 t2 q c p1 p2 e, es2.lookup name = some t2 →
      t2.isDir = true →
      compare_dirs (FsTree.dir sub b) t2 q c (p1 ++ [name]) (p2 ++ [name]) =
        Except.error e →
      walkLeft [(name, FsTree.dir sub b)] es2 q c p1 p2 =
        [(p1 ++ [name], FileDiff.Error e)]) ∧
    (∀ name cnt o es2 t2 q c p1 p2 e, es2.lookup name = some t2 →
      compare_files_fs (FsTree.file cnt o) t2 q c = Except.error e →
      walkLeft [(name, FsTree.file cnt o)] es2 q c p1 p2 =
        [(p1 ++ [name], FileDiff.Error e)]) := by
  refine ⟨?_, ?_, ?_, ?_⟩
  · intro t1 t2 q c p1 p2 e h es1 es2 hee
    obtain ⟨rfl, rfl⟩ := hee
    rw [compare_dirs] at h
    simp at h
  · intro pre post name t es2 q c p1 p2
    rw [compare_dirs, walkLeft_append, walkLeft_cons]
    simp [List.append_assoc]
  · intro name sub b es2 t2 q c p1 p2 e hlk ht2 hcd
    cases t2 with
    | file cnt2 o2 => simp [FsTree.isDir] at ht2
    | dir sub2 b2 => simp [walkLeft, hlk, FsTree.isDir, hcd]
  · intro name cnt o es2 t2 q c p1 p2 e hlk hcf
    simp [walkLeft, hlk, FsTree.isDir, hcf]

/-- Witness for claim C6 at a concrete input: a shared subdirectory whose left
copy cannot be listed becomes one Error entry. -/
theorem C6_error_isolation_witness :
    walkLeft [("s", FsTree.dir [] false)] [("s", FsTree.dir [] true)]
        false 4 ["L"] ["R"] =
      [(["L", "s"], FileDiff.Error "Permission denied (os error 13)")] :=
  C6_error_isolation.2.2.1 "s" [] false [("s", FsTree.dir [] true)]
    (FsTree.dir [] true) false 4 ["L"] ["R"] "Permission denied (os error 13)"
    rfl rfl (by simp [compare_dirs])

end FileCmp
